import Mathlib

/-!
Verification of the dumbsnake terminal snake game (src/dumbsnake.c).

The embedding below translates the data model and the operations of the C
source into Lean:

* `Board` mirrors `board_t`: dimensions plus the flat character buffer
  `text` (the `array` field of the C struct is only a table of row pointers
  into `text`, so indexing `array[y][x]` is embedded as the flat index
  `y * width + x`).
* `Pos` mirrors `pos_t` (unsigned coordinates).
* `Snake` mirrors `snake_t`: the tracked `len` field plus the doubly linked
  chain of `snake_part_t` segments, embedded as the list of their positions
  in head-to-tail order.  The C `head` pointer is the first element of the
  list and the C `tail` pointer is the last element.
* `dsBoardCreate`, `dsSnakeCreate`, `dsBoardPutSnake`, `dsSnakeMove`
  translate `ds_board_create`, `ds_snake_create`, `ds_board_put_snake`
  and `ds_snake_move`.
* `dsHandleKey`, `dsDrainKeys` translate the key `switch` and the
  input-drain loop of `game`, and `dsResizeStep` the window-resize block.

C `size_t` arithmetic in `ds_snake_move` is embedded with `Int`
arithmetic: for every state the program can reach (`x < width`,
`dx ∈ {-1,0,1}`, `width ≥ 1`, board small enough that `malloc` succeeded)
the C expression `(x + dx + width) % width` never exceeds `SIZE_MAX`, so
the unsigned wrap-around of `size_t` is unobservable and `Int.emod` on the
shifted-positive value computes the same result.
-/

/-- `DS_FULL_GROWN_LEN` from the source. -/
def DS_FULL_GROWN_LEN : Nat := 15

/-- `DS_CHAR_SNAKE_BODY` from the source. -/
def DS_CHAR_SNAKE_BODY : Char := 'X'

/-- `DS_CHAR_FLOOR` from the source. -/
def DS_CHAR_FLOOR : Char := ' '

/-- `pos_t`: an unsigned coordinate pair. -/
structure Pos where
  x : Nat
  y : Nat
deriving DecidableEq, Repr

/-- `board_t`: dimensions plus the flat text buffer (without the trailing
NUL, which only serves `printw`).  `array[y][x]` is `text[y*width + x]`. -/
structure Board where
  width : Nat
  height : Nat
  text : List Char
deriving DecidableEq, Repr

/-- `snake_t`: the tracked length field plus the segment chain as the list
of segment positions, head first, tail last. -/
structure Snake where
  len : Nat
  parts : List Pos
deriving DecidableEq, Repr

/-- The help text printed into the board by `ds_board_create`
(`"Press 'q' to quit, 'p' to pause."`).  The single-quote character is
spelled via `Char.ofNat 39`. -/
def dsHelp : List Char :=
  "Press ".toList ++ [Char.ofNat 39, 'q', Char.ofNat 39] ++ " to quit, ".toList
    ++ [Char.ofNat 39, 'p', Char.ofNat 39] ++ " to pause.".toList

/-- `ds_board_create`: fill the `width*height` buffer with `DS_CHAR_FLOOR`,
then `strncpy` the help text over the start, truncated to the buffer
capacity (`DS_MIN(strlen(help), len)` characters are copied). -/
def dsBoardCreate (width height : Nat) : Board :=
  let len := width * height
  let floorText := List.replicate len DS_CHAR_FLOOR
  let n := min dsHelp.length len
  { width := width, height := height,
    text := dsHelp.take n ++ floorText.drop n }

/-- `board->array[y][x] = c`, i.e. a write to `text[y*width + x]`. -/
def dsSetCell (b : Board) (x y : Nat) (c : Char) : Board :=
  { b with text := b.text.set (y * b.width + x) c }

/-- Read of `board->array[y][x]`, i.e. of `text[y*width + x]`. -/
def dsCell (b : Board) (x y : Nat) : Char :=
  b.text.getD (y * b.width + x) DS_CHAR_FLOOR

/-- `ds_snake_create`: a single segment at the given position, `len = 1`,
head and tail both pointing at that segment. -/
def dsSnakeCreate (x y : Nat) : Snake :=
  { len := 1, parts := [⟨x, y⟩] }

/-- `ds_board_put_snake`: paint every segment cell `DS_CHAR_SNAKE_BODY`. -/
def dsBoardPutSnake (b : Board) (s : Snake) : Board :=
  s.parts.foldl (fun acc p => dsSetCell acc p.x p.y DS_CHAR_SNAKE_BODY) b

/-- The coordinate computation of `ds_snake_move`:
`(v + d + m) % m` on `size_t` (see the header comment on overflow). -/
def dsWrap (v : Nat) (d : Int) (m : Nat) : Nat :=
  (((v : Int) + d + (m : Int)) % (m : Int)).toNat

/-- The position of the new head segment allocated by `ds_snake_move`:
the current head position moved by `(dx, dy)` with toroidal wrap. -/
def dsNewHead (s : Snake) (b : Board) (dx dy : Int) : Pos :=
  let h := s.parts.headD ⟨0, 0⟩
  ⟨dsWrap h.x dx b.width, dsWrap h.y dy b.height⟩

/-- `ds_snake_move`: prepend the new head segment, paint its cell
`DS_CHAR_SNAKE_BODY`, increment `len`; then, if `len` exceeds
`DS_FULL_GROWN_LEN`, unlink the old tail segment, paint its cell
`DS_CHAR_FLOOR` (after the head cell was painted), and decrement `len`.
Returns the updated snake and board. -/
def dsSnakeMove (s : Snake) (b : Board) (dx dy : Int) : Snake × Board :=
  let np := dsNewHead s b dx dy
  let b1 := dsSetCell b np.x np.y DS_CHAR_SNAKE_BODY
  let parts1 := np :: s.parts
  let len1 := s.len + 1
  if len1 > DS_FULL_GROWN_LEN then
    let tp := parts1.getLastD ⟨0, 0⟩
    (⟨len1 - 1, parts1.dropLast⟩, dsSetCell b1 tp.x tp.y DS_CHAR_FLOOR)
  else
    (⟨len1, parts1⟩, b1)

/-- The direction precondition asserted by `ds_snake_move`:
each component in `{-1,0,1}` and exactly one of them zero. -/
def validDir (dx dy : Int) : Prop :=
  (dx = 0 ∨ dx = 1 ∨ dx = -1) ∧ (dy = 0 ∨ dy = 1 ∨ dy = -1) ∧
    ¬((dx = 0) ↔ (dy = 0))

instance (dx dy : Int) : Decidable (validDir dx dy) := by
  unfold validDir; infer_instance

/-- The curses key code `'q'` (quit). -/
def dsKeyQuit : Int := 113

/-- The curses key code `'p'` (pause toggle). -/
def dsKeyPause : Int := 112

/-- The ncurses `KEY_LEFT` code (octal 0404). -/
def dsKeyLeft : Int := 260

/-- The ncurses `KEY_RIGHT` code (octal 0405). -/
def dsKeyRight : Int := 261

/-- The ncurses `KEY_UP` code (octal 0403). -/
def dsKeyUp : Int := 259

/-- The ncurses `KEY_DOWN` code (octal 0402). -/
def dsKeyDown : Int := 258

/-- The loop-local control state of `game` that the key `switch` updates:
direction `(dx, dy)` and the `paused` and `quit` flags. -/
structure GameInputState where
  dx : Int
  dy : Int
  paused : Bool
  quit : Bool
deriving DecidableEq, Repr

/-- The `switch (key)` statement of `game`: `q` sets `quit`, `p` toggles
`paused`, an arrow key sets the direction only when the snake is not
already moving along that axis, every other key is ignored. -/
def dsHandleKey (s : GameInputState) (key : Int) : GameInputState :=
  if key = dsKeyQuit then { s with quit := true }
  else if key = dsKeyPause then { s with paused := !s.paused }
  else if key = dsKeyLeft then
    if s.dx = 0 then { s with dx := -1, dy := 0 } else s
  else if key = dsKeyRight then
    if s.dx = 0 then { s with dx := 1, dy := 0 } else s
  else if key = dsKeyUp then
    if s.dy = 0 then { s with dx := 0, dy := -1 } else s
  else if key = dsKeyDown then
    if s.dy = 0 then { s with dx := 0, dy := 1 } else s
  else s

/-- The inner key-drain loop of `game`, applied to the queue of pending
key codes this tick (`getch` yields `-1` once the queue is empty, which
ends the loop; the loop also stops once `quit` is set).  `prev` is the
`prev_key` variable, initialised to `-1` before the loop: a polled key
equal to the immediately preceding polled key is skipped. -/
def dsDrainKeys (s : GameInputState) (prev : Int) : List Int → GameInputState
  | [] => s
  | key :: rest =>
    if s.quit then s
    else if key = -1 then s
    else if key = prev then dsDrainKeys s prev rest
    else dsDrainKeys (dsHandleKey s key) key rest

/-- One whole drain pass: `prev_key = -1` then the drain loop. -/
def dsHandleInput (s : GameInputState) (keys : List Int) : GameInputState :=
  dsDrainKeys s (-1) keys

/-- The per-tick state of `game` that the window-resize block touches or
must leave alone: board, snake, direction, flags, and the stored previous
terminal dimensions. -/
structure GameState where
  board : Board
  snake : Snake
  dx : Int
  dy : Int
  paused : Bool
  quit : Bool
  prevCols : Nat
  prevLines : Nat
deriving Repr

/-- The window-size-change block at the top of the main loop of `game`:
when the current terminal dimensions differ from the stored ones, the
board and the snake are recreated (snake centered, single segment) and
the stored dimensions are updated; nothing else is touched. -/
def dsResizeStep (g : GameState) (cols lines : Nat) : GameState :=
  if cols ≠ g.prevCols ∨ g.prevLines ≠ lines then
    { g with board := dsBoardCreate cols lines,
             snake := dsSnakeCreate (cols / 2) (lines / 2),
             prevCols := cols, prevLines := lines }
  else g

/-- Iterated `ds_snake_move` calls, threading snake and board. -/
def dsRunMoves : Snake → Board → List (Int × Int) → Snake × Board
  | s, b, [] => (s, b)
  | s, b, d :: ds =>
    let sb := dsSnakeMove s b d.1 d.2
    dsRunMoves sb.1 sb.2 ds

/-- The snake well-formedness invariant: the segment chain is non-empty
(so the head and tail pointers have ends to point at), the `len` field
counts the chain, and `1 ≤ len ≤ DS_FULL_GROWN_LEN`. -/
def SnakeWF (s : Snake) : Prop :=
  s.parts ≠ [] ∧ s.len = s.parts.length ∧ 1 ≤ s.len ∧
    s.len ≤ DS_FULL_GROWN_LEN

theorem dsGetD_set_self (l : List Char) (i : Nat) (c d : Char) (h : i < l.length) :
    (l.set i c).getD i d = c := by
  simp [List.getD_eq_getElem?_getD, List.getElem?_set_self h]

theorem dsGetD_set_ne (l : List Char) (i j : Nat) (c d : Char) (h : i ≠ j) :
    (l.set i c).getD j d = l.getD j d := by
  simp [List.getD_eq_getElem?_getD, List.getElem?_set_ne h]

theorem dsFlatIdx_lt {w h x y : Nat} (hx : x < w) (hy : y < h) :
    y * w + x < w * h := by
  have e : (y + 1) * w = y * w + w := by ring
  have h2 : (y + 1) * w ≤ h * w := Nat.mul_le_mul_right w (by omega)
  have e2 : h * w = w * h := Nat.mul_comm h w
  omega

theorem dsFlatIdx_inj {w x1 y1 x2 y2 : Nat} (h1 : x1 < w) (h2 : x2 < w)
    (he : y1 * w + x1 = y2 * w + x2) : x1 = x2 ∧ y1 = y2 := by
  have hc1 : y1 * w + x1 = x1 + y1 * w := by ring
  have hc2 : y2 * w + x2 = x2 + y2 * w := by ring
  have m1 : (x1 + y1 * w) % w = x1 % w := Nat.add_mul_mod_self_right x1 y1 w
  have m2 : (x2 + y2 * w) % w = x2 % w := Nat.add_mul_mod_self_right x2 y2 w
  have r1 : x1 % w = x1 := Nat.mod_eq_of_lt h1
  have r2 : x2 % w = x2 := Nat.mod_eq_of_lt h2
  have hee : x1 + y1 * w = x2 + y2 * w := by omega
  have hmm : x1 % w = x2 % w := by rw [← m1, ← m2, hee]
  have hx : x1 = x2 := by omega
  refine ⟨hx, ?_⟩
  have hy : y1 * w = y2 * w := by omega
  exact Nat.eq_of_mul_eq_mul_right (by omega) hy

theorem dsWrap_lt {m : Nat} (v : Nat) (d : Int) (hm : 0 < m) :
    dsWrap v d m < m := by
  unfold dsWrap
  have hm0 : (m : Int) ≠ 0 := by omega
  have h1 : 0 ≤ ((v : Int) + d + m) % m := Int.emod_nonneg _ hm0
  have h2 : ((v : Int) + d + m) % m < m := Int.emod_lt_of_pos _ (by omega)
  omega

theorem dsWrap_left {m : Nat} (hm : 0 < m) : dsWrap 0 (-1) m = m - 1 := by
  unfold dsWrap
  have h1 : ((0 : Nat) : Int) + (-1) + m = (m : Int) - 1 := by ring
  rw [h1, Int.emod_eq_of_lt (by omega) (by omega)]
  omega

theorem dsWrap_right {m : Nat} (hm : 0 < m) : dsWrap (m - 1) 1 m = 0 := by
  unfold dsWrap
  have h1 : ((m - 1 : Nat) : Int) + 1 + m = (m : Int) * 2 := by
    have h2 : ((m - 1 : Nat) : Int) = (m : Int) - 1 := by omega
    rw [h2]; ring
  rw [h1, Int.mul_emod_right]
  rfl

/-- C2: for every snake with `length < 15` and every valid direction, one
`ds_snake_move` call increases `len` by exactly 1, keeps every old segment
(no tail removed, the new head is merely prepended), and the only board
write is the new head cell being painted `DS_CHAR_SNAKE_BODY` — in
particular no board cell is set back to `DS_CHAR_FLOOR`. -/
theorem c2_growing_move (s : Snake) (b : Board) (dx dy : Int)
    (hlen : s.len < DS_FULL_GROWN_LEN) (hdir : validDir dx dy) :
    (dsSnakeMove s b dx dy).1.len = s.len + 1 ∧
    (dsSnakeMove s b dx dy).1.parts = dsNewHead s b dx dy :: s.parts ∧
    (dsSnakeMove s b dx dy).2
      = dsSetCell b (dsNewHead s b dx dy).x (dsNewHead s b dx dy).y
          DS_CHAR_SNAKE_BODY ∧
    (∀ i : Nat, b.text.getD i DS_CHAR_SNAKE_BODY ≠ DS_CHAR_FLOOR →
      (dsSnakeMove s b dx dy).2.text.getD i DS_CHAR_SNAKE_BODY
        ≠ DS_CHAR_FLOOR) := by
  have hif : ¬ (s.len + 1 > DS_FULL_GROWN_LEN) := by omega
  have hmove : dsSnakeMove s b dx dy
      = (⟨s.len + 1, dsNewHead s b dx dy :: s.parts⟩,
         dsSetCell b (dsNewHead s b dx dy).x (dsNewHead s b dx dy).y
           DS_CHAR_SNAKE_BODY) := by
    unfold dsSnakeMove
    simp only [if_neg hif]
  refine ⟨by rw [hmove], by rw [hmove], by rw [hmove], ?_⟩
  intro i hi
  rw [hmove]
  show (dsSetCell b _ _ _).text.getD i _ ≠ _
  unfold dsSetCell
  by_cases hidx :
      (dsNewHead s b dx dy).y * b.width + (dsNewHead s b dx dy).x = i
  · by_cases hrange : i < b.text.length
    · rw [← hidx] at hrange ⊢
      rw [dsGetD_set_self _ _ _ _ hrange]
      decide
    · rw [List.set_eq_of_length_le (by omega)]
      exact hi
  · rw [dsGetD_set_ne _ _ _ _ _ hidx]
    exact hi

theorem dsSnakeMove_head_of_ne_nil (s : Snake) (b : Board) (dx dy : Int)
    (hne : s.parts ≠ []) :
    (dsSnakeMove s b dx dy).1.parts.headD ⟨0, 0⟩ = dsNewHead s b dx dy := by
  obtain ⟨q, qs, hq⟩ := List.exists_cons_of_ne_nil hne
  unfold dsSnakeMove
  by_cases hc : s.len + 1 > DS_FULL_GROWN_LEN
  · simp only [if_pos hc, hq, List.dropLast_cons₂, List.headD_cons]
  · simp only [if_neg hc, List.headD_cons]

/-- C3: toroidal wrap of `ds_snake_move`: moving left from `x = 0` puts
the new head at `x = width - 1`; right from `x = width - 1` at `x = 0`;
up from `y = 0` at `y = height - 1`; down from `y = height - 1` at
`y = 0`; in general the new head is
`((head.x + dx + width) mod width, (head.y + dy + height) mod height)`,
which lies inside the board, and it is exactly the head the snake carries
after the move. -/
theorem c3_toroidal_wrap (s : Snake) (b : Board) (dx dy : Int)
    (hw : 0 < b.width) (hh : 0 < b.height) :
    (dx = -1 → (s.parts.headD ⟨0, 0⟩).x = 0 →
      (dsNewHead s b dx dy).x = b.width - 1) ∧
    (dx = 1 → (s.parts.headD ⟨0, 0⟩).x = b.width - 1 →
      (dsNewHead s b dx dy).x = 0) ∧
    (dy = -1 → (s.parts.headD ⟨0, 0⟩).y = 0 →
      (dsNewHead s b dx dy).y = b.height - 1) ∧
    (dy = 1 → (s.parts.headD ⟨0, 0⟩).y = b.height - 1 →
      (dsNewHead s b dx dy).y = 0) ∧
    (dsNewHead s b dx dy).x
      = ((((s.parts.headD ⟨0, 0⟩).x : Int) + dx + b.width) % b.width).toNat ∧
    (dsNewHead s b dx dy).y
      = ((((s.parts.headD ⟨0, 0⟩).y : Int) + dy + b.height) % b.height).toNat ∧
    (dsNewHead s b dx dy).x < b.width ∧
    (dsNewHead s b dx dy).y < b.height ∧
    (s.parts ≠ [] →
      (dsSnakeMove s b dx dy).1.parts.headD ⟨0, 0⟩ = dsNewHead s b dx dy) := by
  refine ⟨?_, ?_, ?_, ?_, rfl, rfl, dsWrap_lt _ _ hw, dsWrap_lt _ _ hh,
    dsSnakeMove_head_of_ne_nil s b dx dy⟩
  · intro h1 h2
    show dsWrap (s.parts.headD ⟨0, 0⟩).x dx b.width = b.width - 1
    rw [h1, h2]
    exact dsWrap_left hw
  · intro h1 h2
    show dsWrap (s.parts.headD ⟨0, 0⟩).x dx b.width = 0
    rw [h1, h2]
    exact dsWrap_right hw
  · intro h1 h2
    show dsWrap (s.parts.headD ⟨0, 0⟩).y dy b.height = b.height - 1
    rw [h1, h2]
    exact dsWrap_left hh
  · intro h1 h2
    show dsWrap (s.parts.headD ⟨0, 0⟩).y dy b.height = 0
    rw [h1, h2]
    exact dsWrap_right hh

/-- Witness for C3 on a concrete 3-by-2 board with the head at the
origin, moving left. -/
theorem c3_toroidal_wrap_witness :
    (0 : Nat) < (dsBoardCreate 3 2).width ∧
    ((-1 : Int) = -1 → ((dsSnakeCreate 0 0).parts.headD ⟨0, 0⟩).x = 0 →
      (dsNewHead (dsSnakeCreate 0 0) (dsBoardCreate 3 2) (-1) 0).x
        = (dsBoardCreate 3 2).width - 1) :=
  ⟨by decide,
    (c3_toroidal_wrap (dsSnakeCreate 0 0) (dsBoardCreate 3 2) (-1) 0
      (by decide) (by decide)).1⟩

theorem dsSnakeCreate_wf (x y : Nat) : SnakeWF (dsSnakeCreate x y) := by
  unfold SnakeWF dsSnakeCreate DS_FULL_GROWN_LEN
  refine ⟨by simp, by simp, by simp, by simp⟩

theorem dsSnakeMove_wf (s : Snake) (b : Board) (dx dy : Int)
    (hs : SnakeWF s) : SnakeWF (dsSnakeMove s b dx dy).1 := by
  obtain ⟨hne, hlen, h1, h15⟩ := hs
  unfold DS_FULL_GROWN_LEN at h15
  have hpos : 0 < s.parts.length := List.length_pos.mpr hne
  unfold dsSnakeMove
  by_cases hc : s.len + 1 > DS_FULL_GROWN_LEN
  · simp only [if_pos hc]
    refine ⟨?_, ?_, ?_, ?_⟩
    · show (dsNewHead s b dx dy :: s.parts).dropLast ≠ []
      apply List.ne_nil_of_length_pos
      simp only [List.length_dropLast_cons]
      omega
    · show s.len + 1 - 1 = (dsNewHead s b dx dy :: s.parts).dropLast.length
      simp only [List.length_dropLast_cons]
      omega
    · show 1 ≤ s.len + 1 - 1
      omega
    · show s.len + 1 - 1 ≤ DS_FULL_GROWN_LEN
      unfold DS_FULL_GROWN_LEN
      omega
  · simp only [if_neg hc]
    unfold DS_FULL_GROWN_LEN at hc
    refine ⟨by simp, ?_, ?_, ?_⟩
    · show s.len + 1 = (dsNewHead s b dx dy :: s.parts).length
      simp only [List.length_cons]
      omega
    · show 1 ≤ s.len + 1
      omega
    · show s.len + 1 ≤ DS_FULL_GROWN_LEN
      unfold DS_FULL_GROWN_LEN
      omega

theorem dsRunMoves_wf :
    ∀ (ms : List (Int × Int)) (s : Snake) (b : Board),
      SnakeWF s → SnakeWF (dsRunMoves s b ms).1
  | [], _, _, hs => hs
  | d :: ds, s, b, hs =>
    dsRunMoves_wf ds (dsSnakeMove s b d.1 d.2).1 (dsSnakeMove s b d.1 d.2).2
      (dsSnakeMove_wf s b d.1 d.2 hs)

/-- C4: for every snake reachable from `ds_snake_create` by any sequence of
valid `ds_snake_move` calls, after every move `1 ≤ len ≤ 15` holds, the
tracked `len` field counts the segment chain, and the chain is non-empty,
so the head pointer (first chain element) and the tail pointer (last chain
element) stay consistent with the chain ends. -/
theorem c4_reachable_invariant (x y : Nat) (b : Board)
    (ms : List (Int × Int)) (hvalid : ∀ d ∈ ms, validDir d.1 d.2) :
    1 ≤ (dsRunMoves (dsSnakeCreate x y) b ms).1.len ∧
    (dsRunMoves (dsSnakeCreate x y) b ms).1.len ≤ DS_FULL_GROWN_LEN ∧
    (dsRunMoves (dsSnakeCreate x y) b ms).1.len
      = (dsRunMoves (dsSnakeCreate x y) b ms).1.parts.length ∧
    (dsRunMoves (dsSnakeCreate x y) b ms).1.parts ≠ [] := by
  have h := dsRunMoves_wf ms (dsSnakeCreate x y) b (dsSnakeCreate_wf x y)
  exact ⟨h.2.2.1, h.2.2.2, h.2.1, h.1⟩

/-- Witness for C4: 17 consecutive upward moves on a 4-by-4 board from the
center. -/
theorem c4_reachable_invariant_witness :
    (∀ d ∈ List.replicate 17 ((0 : Int), (-1 : Int)), validDir d.1 d.2) ∧
    1 ≤ (dsRunMoves (dsSnakeCreate 2 2) (dsBoardCreate 4 4)
          (List.replicate 17 ((0 : Int), (-1 : Int)))).1.len ∧
    (dsRunMoves (dsSnakeCreate 2 2) (dsBoardCreate 4 4)
          (List.replicate 17 ((0 : Int), (-1 : Int)))).1.len
      ≤ DS_FULL_GROWN_LEN :=
  ⟨by decide,
    (c4_reachable_invariant 2 2 (dsBoardCreate 4 4)
      (List.replicate 17 ((0 : Int), (-1 : Int))) (by decide)).1,
    (c4_reachable_invariant 2 2 (dsBoardCreate 4 4)
      (List.replicate 17 ((0 : Int), (-1 : Int))) (by decide)).2.1⟩

/-- C5: the reversal guard of the key `switch`: a left/right arrow key sets
the direction to `(-1,0)` / `(+1,0)` exactly when the current `dx = 0`, an
up/down arrow key sets it to `(0,-1)` / `(0,+1)` exactly when the current
`dy = 0`, and otherwise the direction is unchanged; in particular from
direction `(1,0)` a left key leaves the whole state unchanged while up and
down keys do change the direction. -/
theorem c5_reversal_guard (s : GameInputState) :
    ((dsHandleKey s dsKeyLeft).dx = if s.dx = 0 then -1 else s.dx) ∧
    ((dsHandleKey s dsKeyLeft).dy = if s.dx = 0 then 0 else s.dy) ∧
    ((dsHandleKey s dsKeyRight).dx = if s.dx = 0 then 1 else s.dx) ∧
    ((dsHandleKey s dsKeyRight).dy = if s.dx = 0 then 0 else s.dy) ∧
    ((dsHandleKey s dsKeyUp).dx = if s.dy = 0 then 0 else s.dx) ∧
    ((dsHandleKey s dsKeyUp).dy = if s.dy = 0 then -1 else s.dy) ∧
    ((dsHandleKey s dsKeyDown).dx = if s.dy = 0 then 0 else s.dx) ∧
    ((dsHandleKey s dsKeyDown).dy = if s.dy = 0 then 1 else s.dy) ∧
    (s.dx = 1 → s.dy = 0 →
      dsHandleKey s dsKeyLeft = s ∧
      (dsHandleKey s dsKeyUp).dx = 0 ∧ (dsHandleKey s dsKeyUp).dy = -1 ∧
      (dsHandleKey s dsKeyDown).dx = 0 ∧
      (dsHandleKey s dsKeyDown).dy = 1) := by
  unfold dsHandleKey dsKeyQuit dsKeyPause dsKeyLeft dsKeyRight dsKeyUp dsKeyDown
  norm_num
  constructor
  · by_cases h : s.dx = 0 <;> simp [h]
  constructor
  · by_cases h : s.dx = 0 <;> simp [h]
  constructor
  · by_cases h : s.dx = 0 <;> simp [h]
  constructor
  · by_cases h : s.dx = 0 <;> simp [h]
  constructor
  · by_cases h : s.dy = 0 <;> simp [h]
  constructor
  · by_cases h : s.dy = 0 <;> simp [h]
  constructor
  · by_cases h : s.dy = 0 <;> simp [h]
  constructor
  · by_cases h : s.dy = 0 <;> simp [h]
  intro hx hy
  simp [hx, hy]

/-- Witness for C5: from direction `(1,0)` a left key leaves the state
unchanged and a down key turns the direction to `(0,1)`. -/
theorem c5_reversal_guard_witness :
    dsHandleKey ⟨1, 0, false, false⟩ dsKeyLeft = ⟨1, 0, false, false⟩ ∧
    (dsHandleKey ⟨1, 0, false, false⟩ dsKeyDown).dx = 0 ∧
    (dsHandleKey ⟨1, 0, false, false⟩ dsKeyDown).dy = 1 := by
  obtain ⟨-, -, -, -, -, -, -, -, hp⟩ := c5_reversal_guard ⟨1, 0, false, false⟩
  obtain ⟨hleft, -, -, hdown1, hdown2⟩ := hp rfl rfl
  exact ⟨hleft, hdown1, hdown2⟩

theorem dsDrainKeys_cons (s : GameInputState) (prev k : Int)
    (rest : List Int) :
    dsDrainKeys s prev (k :: rest)
      = if s.quit then s
        else if k = -1 then s
        else if k = prev then dsDrainKeys s prev rest
        else dsDrainKeys (dsHandleKey s k) k rest := rfl

theorem dsDrainKeys_quit (s : GameInputState) (prev : Int) (l : List Int)
    (hq : s.quit = true) : dsDrainKeys s prev l = s := by
  cases l with
  | nil => rfl
  | cons k rest => rw [dsDrainKeys_cons, if_pos hq]

theorem dsDrainKeys_skip_replicate (s : GameInputState) (k : Int) (n : Nat)
    (rest : List Int) (hk : k ≠ -1) :
    dsDrainKeys s k (List.replicate n k ++ rest) = dsDrainKeys s k rest := by
  induction n with
  | zero => rfl
  | succ m ih =>
    rw [List.replicate_succ, List.cons_append, dsDrainKeys_cons]
    by_cases hq : s.quit
    · rw [if_pos hq, dsDrainKeys_quit s k rest hq]
    · rw [if_neg hq, if_neg hk, if_pos rfl, ih]

/-- C6: input de-duplication in one drain pass: a run of `n` extra copies
of the same key right after its first occurrence changes nothing (the
repeated key registers exactly once), while a key different from the
immediately preceding one is handled normally (so the first occurrence of
each new key still registers within the same drain). -/
theorem c6_input_dedup (s : GameInputState) (prev k : Int) (n : Nat)
    (rest : List Int) (hk : k ≠ -1) :
    dsDrainKeys s prev (k :: (List.replicate n k ++ rest))
      = dsDrainKeys s prev (k :: rest) ∧
    (s.quit = false → k ≠ prev →
      dsDrainKeys s prev (k :: rest)
        = dsDrainKeys (dsHandleKey s k) k rest) := by
  constructor
  · rw [dsDrainKeys_cons, dsDrainKeys_cons]
    by_cases hq : s.quit
    · rw [if_pos hq, if_pos hq]
    · rw [if_neg hq, if_neg hq, if_neg hk, if_neg hk]
      by_cases hp : k = prev
      · rw [if_pos hp, if_pos hp, ← hp]
        exact dsDrainKeys_skip_replicate s k n rest hk
      · rw [if_neg hp, if_neg hp]
        exact dsDrainKeys_skip_replicate (dsHandleKey s k) k n rest hk
  · intro hq hp
    rw [dsDrainKeys_cons, if_neg (by simp [hq]), if_neg hk, if_neg hp]

/-- Witness for C6: a triple press of `p` in one drain registers like a
single press, and the single press registers. -/
theorem c6_input_dedup_witness :
    ((112 : Int) ≠ -1) ∧
    dsDrainKeys ⟨0, -1, false, false⟩ (-1)
        (112 :: (List.replicate 2 112 ++ []))
      = dsDrainKeys ⟨0, -1, false, false⟩ (-1) [112] ∧
    dsDrainKeys ⟨0, -1, false, false⟩ (-1) [112]
      = dsDrainKeys (dsHandleKey ⟨0, -1, false, false⟩ 112) 112 [] :=
  ⟨by decide,
    (c6_input_dedup ⟨0, -1, false, false⟩ (-1) 112 2 [] (by decide)).1,
    (c6_input_dedup ⟨0, -1, false, false⟩ (-1) 112 2 [] (by decide)).2
      rfl (by decide)⟩

/-- C8: when the terminal dimensions changed, the resize block recreates
the board from the new dimensions and the snake as a fresh centered
single-segment snake, and stores the new dimensions, while the direction
`(dx, dy)`, the `paused` flag and the `quit` flag are left untouched — in
particular the direction is NOT reset to the initial upward value. -/
theorem c8_resize_step (g : GameState) (cols lines : Nat)
    (hchange : cols ≠ g.prevCols ∨ g.prevLines ≠ lines) :
    (dsResizeStep g cols lines).board = dsBoardCreate cols lines ∧
    (dsResizeStep g cols lines).snake = dsSnakeCreate (cols / 2) (lines / 2) ∧
    (dsResizeStep g cols lines).snake.len = 1 ∧
    (dsResizeStep g cols lines).snake.parts = [⟨cols / 2, lines / 2⟩] ∧
    (dsResizeStep g cols lines).dx = g.dx ∧
    (dsResizeStep g cols lines).dy = g.dy ∧
    (dsResizeStep g cols lines).paused = g.paused ∧
    (dsResizeStep g cols lines).quit = g.quit ∧
    (dsResizeStep g cols lines).prevCols = cols ∧
    (dsResizeStep g cols lines).prevLines = lines := by
  unfold dsResizeStep
  rw [if_pos hchange]
  exact ⟨rfl, rfl, rfl, rfl, rfl, rfl, rfl, rfl, rfl, rfl⟩

/-- Witness for C8: a resize from stored 10-by-5 to 8-by-5 keeps a
rightward direction and the paused flag. -/
theorem c8_resize_step_witness :
    ((8 : Nat) ≠ 10 ∨ (5 : Nat) ≠ 5) ∧
    (dsResizeStep ⟨dsBoardCreate 10 5, dsSnakeCreate 5 2, 1, 0, true, false,
        10, 5⟩ 8 5).dx = 1 ∧
    (dsResizeStep ⟨dsBoardCreate 10 5, dsSnakeCreate 5 2, 1, 0, true, false,
        10, 5⟩ 8 5).paused = true ∧
    (dsResizeStep ⟨dsBoardCreate 10 5, dsSnakeCreate 5 2, 1, 0, true, false,
        10, 5⟩ 8 5).snake = dsSnakeCreate 4 2 :=
  ⟨by decide,
    (c8_resize_step _ 8 5 (by decide)).2.2.2.2.1,
    (c8_resize_step _ 8 5 (by decide)).2.2.2.2.2.2.1,
    (c8_resize_step _ 8 5 (by decide)).2.1⟩

theorem dsBoardCreate_text (w h : Nat) :
    (dsBoardCreate w h).text
      = dsHelp.take (min dsHelp.length (w * h))
          ++ (List.replicate (w * h) DS_CHAR_FLOOR).drop
               (min dsHelp.length (w * h)) := rfl

/-- C9: for all positive dimensions, `ds_board_create` yields a buffer of
exactly `width * height` cells, whose prefix is the help text truncated to
the grid capacity and whose every other cell is `DS_CHAR_FLOOR`. -/
theorem c9_board_create (w h : Nat) (hw : 0 < w) (hh : 0 < h) :
    (dsBoardCreate w h).text.length = w * h ∧
    (∀ i : Nat, i < min dsHelp.length (w * h) →
      (dsBoardCreate w h).text.getD i DS_CHAR_FLOOR = dsHelp.getD i DS_CHAR_FLOOR) ∧
    (∀ i : Nat, min dsHelp.length (w * h) ≤ i → i < w * h →
      (dsBoardCreate w h).text.getD i DS_CHAR_FLOOR = DS_CHAR_FLOOR) := by
  have htake : (dsHelp.take (min dsHelp.length (w * h))).length
      = min dsHelp.length (w * h) := by
    rw [List.length_take]
    omega
  refine ⟨?_, ?_, ?_⟩
  · rw [dsBoardCreate_text, List.length_append, htake, List.length_drop,
      List.length_replicate]
    omega
  · intro i hi
    rw [dsBoardCreate_text]
    rw [List.getD_eq_getElem?_getD, List.getElem?_append_left (by omega),
      List.getElem?_take_of_lt hi, ← List.getD_eq_getElem?_getD]
  · intro i hlo hhi
    rw [dsBoardCreate_text]
    rw [List.getD_eq_getElem?_getD, List.getElem?_append_right (by omega),
      htake, List.getElem?_drop, List.getElem?_replicate]
    rw [if_pos (by omega)]
    rfl

/-- Witness for C9 at dimensions 10 and 5. -/
theorem c9_board_create_witness :
    (dsBoardCreate 10 5).text.length = 10 * 5 ∧
    (dsBoardCreate 10 5).text.getD 40 DS_CHAR_FLOOR = DS_CHAR_FLOOR :=
  ⟨(c9_board_create 10 5 (by decide) (by decide)).1,
    (c9_board_create 10 5 (by decide) (by decide)).2.2 40 (by decide)
      (by decide)⟩

theorem dsGetLastD_of_ne_nil (l : List Pos) (d1 d2 : Pos) (h : l ≠ []) :
    l.getLastD d1 = l.getLastD d2 := by
  cases l with
  | nil => exact absurd rfl h
  | cons a t => rw [List.getLastD_cons, List.getLastD_cons]

theorem dsGetLastD_mem_of_ne_nil (l : List Pos) (d : Pos) (h : l ≠ []) :
    l.getLastD d ∈ l := by
  obtain ⟨a, t, rfl⟩ := List.exists_cons_of_ne_nil h
  rw [List.getLastD_cons]
  exact List.getLastD_mem_cons t a

theorem dsPos_ext (p q : Pos) (h1 : p.x = q.x) (h2 : p.y = q.y) : p = q := by
  cases p; cases q; simp_all

theorem dsSetCell_width (b : Board) (x y : Nat) (c : Char) :
    (dsSetCell b x y c).width = b.width := rfl

theorem dsSetCell_text (b : Board) (x y : Nat) (c : Char) :
    (dsSetCell b x y c).text = b.text.set (y * b.width + x) c := rfl

theorem dsCell_eq (b : Board) (x y : Nat) :
    dsCell b x y = b.text.getD (y * b.width + x) DS_CHAR_FLOOR := rfl

theorem dsSnakeMove_full (s : Snake) (b : Board) (dx dy : Int)
    (hlen : s.len = 15) (hne : s.parts ≠ []) :
    dsSnakeMove s b dx dy
      = (⟨15, (dsNewHead s b dx dy :: s.parts).dropLast⟩,
         dsSetCell
           (dsSetCell b (dsNewHead s b dx dy).x (dsNewHead s b dx dy).y
             DS_CHAR_SNAKE_BODY)
           (s.parts.getLastD ⟨0, 0⟩).x (s.parts.getLastD ⟨0, 0⟩).y
           DS_CHAR_FLOOR) := by
  have hif : s.len + 1 > DS_FULL_GROWN_LEN := by
    unfold DS_FULL_GROWN_LEN; omega
  have htl : (dsNewHead s b dx dy :: s.parts).getLastD ⟨0, 0⟩
      = s.parts.getLastD ⟨0, 0⟩ := by
    rw [List.getLastD_cons]
    exact dsGetLastD_of_ne_nil s.parts (dsNewHead s b dx dy) ⟨0, 0⟩ hne
  unfold dsSnakeMove
  simp only [if_pos hif, htl]
  simp only [hlen, Nat.add_sub_cancel]

/-- C1 (amended): for every well-formed full-grown snake (`len = 15`) and
every valid direction, one `ds_snake_move` keeps `len = 15`, removes
exactly the tail segment and paints its board cell `DS_CHAR_FLOOR`, and
prepends exactly one head segment whose board cell reads
`DS_CHAR_SNAKE_BODY` after the move whenever the new head position differs
from the removed tail's position (the tail's `Floor` write comes second
and wins at a shared cell). -/
theorem c1_full_grown_move (s : Snake) (b : Board) (dx dy : Int)
    (hw : 0 < b.width) (hh : 0 < b.height)
    (htext : b.text.length = b.width * b.height)
    (hlen : s.len = 15) (hplen : s.parts.length = 15)
    (hbounds : ∀ p ∈ s.parts, p.x < b.width ∧ p.y < b.height)
    (hdir : validDir dx dy) :
    (dsSnakeMove s b dx dy).1.len = 15 ∧
    (dsSnakeMove s b dx dy).1.parts.length = 15 ∧
    (dsSnakeMove s b dx dy).1.parts
      = dsNewHead s b dx dy :: s.parts.dropLast ∧
    dsCell (dsSnakeMove s b dx dy).2 (s.parts.getLastD ⟨0, 0⟩).x
      (s.parts.getLastD ⟨0, 0⟩).y = DS_CHAR_FLOOR ∧
    (dsNewHead s b dx dy ≠ s.parts.getLastD ⟨0, 0⟩ →
      dsCell (dsSnakeMove s b dx dy).2 (dsNewHead s b dx dy).x
        (dsNewHead s b dx dy).y = DS_CHAR_SNAKE_BODY) := by
  have hne : s.parts ≠ [] := by
    apply List.ne_nil_of_length_pos; omega
  have hmove := dsSnakeMove_full s b dx dy hlen hne
  have htp_mem : s.parts.getLastD ⟨0, 0⟩ ∈ s.parts :=
    dsGetLastD_mem_of_ne_nil s.parts ⟨0, 0⟩ hne
  obtain ⟨htpx, htpy⟩ := hbounds _ htp_mem
  have hnpx : (dsNewHead s b dx dy).x < b.width := dsWrap_lt _ _ hw
  have hnpy : (dsNewHead s b dx dy).y < b.height := dsWrap_lt _ _ hh
  have hti : (s.parts.getLastD ⟨0, 0⟩).y * b.width
      + (s.parts.getLastD ⟨0, 0⟩).x < b.width * b.height :=
    dsFlatIdx_lt htpx htpy
  have hni : (dsNewHead s b dx dy).y * b.width
      + (dsNewHead s b dx dy).x < b.width * b.height :=
    dsFlatIdx_lt hnpx hnpy
  refine ⟨by rw [hmove], ?_, ?_, ?_, ?_⟩
  · rw [hmove]
    show (dsNewHead s b dx dy :: s.parts).dropLast.length = 15
    rw [List.length_dropLast_cons, hplen]
  · rw [hmove]
    show (dsNewHead s b dx dy :: s.parts).dropLast
      = dsNewHead s b dx dy :: s.parts.dropLast
    exact List.dropLast_cons_of_ne_nil hne
  · rw [hmove]
    simp only [dsCell_eq, dsSetCell_text, dsSetCell_width]
    apply dsGetD_set_self
    simp only [List.length_set]
    omega
  · intro hneq
    have hidx_ne : (s.parts.getLastD ⟨0, 0⟩).y * b.width
        + (s.parts.getLastD ⟨0, 0⟩).x
        ≠ (dsNewHead s b dx dy).y * b.width + (dsNewHead s b dx dy).x := by
      intro hcontra
      apply hneq
      obtain ⟨hx, hy⟩ := dsFlatIdx_inj htpx hnpx hcontra
      exact (dsPos_ext _ _ hx hy).symm
    rw [hmove]
    simp only [dsCell_eq, dsSetCell_text, dsSetCell_width]
    rw [dsGetD_set_ne _ _ _ _ _ hidx_ne]
    apply dsGetD_set_self
    omega

/-- Witness for the amended C1: a full-grown snake lying along the top row
of a 20-by-3 board, moving right. -/
theorem c1_full_grown_move_witness :
    (dsSnakeMove ⟨15, (List.range 15).map (fun i => ⟨i, 0⟩)⟩
        (dsBoardCreate 20 3) 1 0).1.len = 15 ∧
    dsCell (dsSnakeMove ⟨15, (List.range 15).map (fun i => ⟨i, 0⟩)⟩
        (dsBoardCreate 20 3) 1 0).2 14 0 = DS_CHAR_FLOOR ∧
    dsCell (dsSnakeMove ⟨15, (List.range 15).map (fun i => ⟨i, 0⟩)⟩
        (dsBoardCreate 20 3) 1 0).2 1 0 = DS_CHAR_SNAKE_BODY := by
  have h := c1_full_grown_move ⟨15, (List.range 15).map (fun i => ⟨i, 0⟩)⟩
    (dsBoardCreate 20 3) 1 0 (by decide) (by decide) (by decide) (by decide)
    (by decide) (by decide) (by decide)
  refine ⟨h.1, ?_, ?_⟩
  · have h4 := h.2.2.2.1
    simpa using h4
  · have h5 := h.2.2.2.2 (by decide)
    simpa using h5

/-- Counterexample to C1 as stated: on the 1-by-1 board (reachable, since
`ds_board_create` only requires positive dimensions) a full-grown snake's
new head position coincides with the trimmed tail's position, and after
the move the head's board cell reads `DS_CHAR_FLOOR`, not
`DS_CHAR_SNAKE_BODY`, because the tail's `Floor` write happens after the
head's `SnakeBody` write. -/
theorem c1_counterexample :
    (⟨15, List.replicate 15 ⟨0, 0⟩⟩ : Snake).len = 15 ∧
    validDir 1 0 ∧
    (dsSnakeMove ⟨15, List.replicate 15 ⟨0, 0⟩⟩ (dsBoardCreate 1 1)
        1 0).1.len = 15 ∧
    (dsSnakeMove ⟨15, List.replicate 15 ⟨0, 0⟩⟩ (dsBoardCreate 1 1)
        1 0).1.parts.headD ⟨0, 0⟩ = ⟨0, 0⟩ ∧
    dsCell (dsSnakeMove ⟨15, List.replicate 15 ⟨0, 0⟩⟩ (dsBoardCreate 1 1)
        1 0).2 0 0 ≠ DS_CHAR_SNAKE_BODY ∧
    dsCell (dsSnakeMove ⟨15, List.replicate 15 ⟨0, 0⟩⟩ (dsBoardCreate 1 1)
        1 0).2 0 0 = DS_CHAR_FLOOR := by decide

/-- C10: in `ds_snake_move` the head cell is painted `DS_CHAR_SNAKE_BODY`
before the trimmed tail cell is painted `DS_CHAR_FLOOR`; hence for every
full-grown snake whose new head position equals the current tail's
position, the board cell at the new head's position reads `DS_CHAR_FLOOR`
after the move, even though the new head segment occupies it. -/
theorem c10_head_overwritten_by_tail (s : Snake) (b : Board) (dx dy : Int)
    (hw : 0 < b.width) (hh : 0 < b.height)
    (htext : b.text.length = b.width * b.height)
    (hlen : s.len = 15) (hplen : s.parts.length = 15)
    (heq : dsNewHead s b dx dy = s.parts.getLastD ⟨0, 0⟩) :
    dsCell (dsSnakeMove s b dx dy).2 (dsNewHead s b dx dy).x
      (dsNewHead s b dx dy).y = DS_CHAR_FLOOR ∧
    (dsSnakeMove s b dx dy).1.parts.headD ⟨0, 0⟩ = dsNewHead s b dx dy := by
  have hne : s.parts ≠ [] := by
    apply List.ne_nil_of_length_pos; omega
  have hmove := dsSnakeMove_full s b dx dy hlen hne
  have hnpx : (dsNewHead s b dx dy).x < b.width := dsWrap_lt _ _ hw
  have hnpy : (dsNewHead s b dx dy).y < b.height := dsWrap_lt _ _ hh
  have hni : (dsNewHead s b dx dy).y * b.width
      + (dsNewHead s b dx dy).x < b.width * b.height :=
    dsFlatIdx_lt hnpx hnpy
  refine ⟨?_, dsSnakeMove_head_of_ne_nil s b dx dy hne⟩
  rw [hmove]
  simp only [dsCell_eq, dsSetCell_text, dsSetCell_width, ← heq]
  apply dsGetD_set_self
  simp only [List.length_set]
  omega

/-- Witness for C10: the 1-by-1 board with a full-grown snake, where the
new head position necessarily equals the tail position. -/
theorem c10_head_overwritten_by_tail_witness :
    dsNewHead ⟨15, List.replicate 15 ⟨0, 0⟩⟩ (dsBoardCreate 1 1) 0 1
      = (List.replicate 15 (⟨0, 0⟩ : Pos)).getLastD ⟨0, 0⟩ ∧
    dsCell (dsSnakeMove ⟨15, List.replicate 15 ⟨0, 0⟩⟩ (dsBoardCreate 1 1)
        0 1).2
      (dsNewHead ⟨15, List.replicate 15 ⟨0, 0⟩⟩ (dsBoardCreate 1 1) 0 1).x
      (dsNewHead ⟨15, List.replicate 15 ⟨0, 0⟩⟩ (dsBoardCreate 1 1) 0 1).y
      = DS_CHAR_FLOOR :=
  ⟨by decide,
    (c10_head_overwritten_by_tail ⟨15, List.replicate 15 ⟨0, 0⟩⟩
      (dsBoardCreate 1 1) 0 1 (by decide) (by decide) (by decide) (by decide)
      (by decide) (by decide)).1⟩

/-- Counterexample to C7 as stated: after the literal call sequence
`ds_board_create(10,5)`, `ds_snake_create(5,2)`,
`ds_snake_move(board, 0,-1)` — without the `ds_board_put_snake` call the
program performs between creation and the loop — the head is at `(5,1)`
with length 2 and cell `(5,1)` is `DS_CHAR_SNAKE_BODY`, but cell `(5,2)`
is NOT `DS_CHAR_SNAKE_BODY`: nothing ever painted the initial segment's
cell, which still holds its `ds_board_create` content (a space of the help
text, i.e. `DS_CHAR_FLOOR`). -/
theorem c7_counterexample :
    (dsSnakeMove (dsSnakeCreate 5 2) (dsBoardCreate 10 5)
        0 (-1)).1.parts.headD ⟨0, 0⟩ = ⟨5, 1⟩ ∧
    (dsSnakeMove (dsSnakeCreate 5 2) (dsBoardCreate 10 5) 0 (-1)).1.len = 2 ∧
    dsCell (dsSnakeMove (dsSnakeCreate 5 2) (dsBoardCreate 10 5) 0 (-1)).2
      5 1 = DS_CHAR_SNAKE_BODY ∧
    dsCell (dsSnakeMove (dsSnakeCreate 5 2) (dsBoardCreate 10 5) 0 (-1)).2
      5 2 ≠ DS_CHAR_SNAKE_BODY ∧
    dsCell (dsSnakeMove (dsSnakeCreate 5 2) (dsBoardCreate 10 5) 0 (-1)).2
      5 2 = DS_CHAR_FLOOR := by decide

/-- C7 (amended): with the snake painted onto the board after creation
(`ds_board_put_snake`, exactly as `game` does before entering the loop),
the scenario holds: after `ds_snake_move(board, 0,-1)` the head is at
`(5,1)`, the length is 2, cell `(5,2)` is still `DS_CHAR_SNAKE_BODY` (not
yet trimmed), and cell `(5,1)` is `DS_CHAR_SNAKE_BODY`. -/
theorem c7_scenario_amended :
    (dsSnakeMove (dsSnakeCreate 5 2)
        (dsBoardPutSnake (dsBoardCreate 10 5) (dsSnakeCreate 5 2))
        0 (-1)).1.parts.headD ⟨0, 0⟩ = ⟨5, 1⟩ ∧
    (dsSnakeMove (dsSnakeCreate 5 2)
        (dsBoardPutSnake (dsBoardCreate 10 5) (dsSnakeCreate 5 2))
        0 (-1)).1.len = 2 ∧
    dsCell (dsSnakeMove (dsSnakeCreate 5 2)
        (dsBoardPutSnake (dsBoardCreate 10 5) (dsSnakeCreate 5 2))
        0 (-1)).2 5 2 = DS_CHAR_SNAKE_BODY ∧
    dsCell (dsSnakeMove (dsSnakeCreate 5 2)
        (dsBoardPutSnake (dsBoardCreate 10 5) (dsSnakeCreate 5 2))
        0 (-1)).2 5 1 = DS_CHAR_SNAKE_BODY := by decide

/-- Witness for C2: the initial single-segment snake on a 10-by-5 board,
moving up. -/
theorem c2_growing_move_witness :
    (dsSnakeCreate 5 2).len < DS_FULL_GROWN_LEN ∧
    validDir 0 (-1) ∧
    (dsSnakeMove (dsSnakeCreate 5 2) (dsBoardCreate 10 5) 0 (-1)).1.len
      = (dsSnakeCreate 5 2).len + 1 ∧
    (dsSnakeMove (dsSnakeCreate 5 2) (dsBoardCreate 10 5) 0 (-1)).1.parts
      = dsNewHead (dsSnakeCreate 5 2) (dsBoardCreate 10 5) 0 (-1)
          :: (dsSnakeCreate 5 2).parts :=
  ⟨by decide, by decide,
    (c2_growing_move (dsSnakeCreate 5 2) (dsBoardCreate 10 5) 0 (-1)
      (by decide) (by decide)).1,
    (c2_growing_move (dsSnakeCreate 5 2) (dsBoardCreate 10 5) 0 (-1)
      (by decide) (by decide)).2.1⟩
